import Mathlib

/-!
Verification of the lead-automation program (`leadautomation.py`).

The program keeps a flat collection of lead records (Python dicts with
string keys) and manipulates them with a handful of small functions:
`upsert_lead`, `auto_qualify`, `generate_proposal_md`, the CSV import
row normalisation, the webhook simulator branches, and JSON persistence
via `save_leads` / `load_leads`.

This file gives a shallow embedding of those functions and proves or
refutes the specification claims about them.

Modelling conventions:
* A Python dict is an association list `Dict := List (String × Value)`
  whose setters replace the first occurrence of a key in place (Python
  dicts have unique keys, which the setters preserve).
* Python scalar values occurring in lead records are `Value`:
  strings, numbers (modelled as `Rat`; the program only manipulates
  real-valued budgets) and `None`.
* Timestamps (`now_iso()`) are passed in as an explicit `now : String`
  argument; file-writing side effects (`save_email`, `save_proposal`,
  `trigger_local_call`, `notify`) are returned as a list of `Artifact`
  values describing exactly the data the program writes.
* String lowercasing / trimming are modelled on `List Char`
  (`Char.toLower`, whitespace dropping); this matches Python semantics
  on the ASCII data the program handles.
-/

inductive Value where
  | vNone : Value
  | vStr : String → Value
  | vNum : Rat → Value
deriving DecidableEq, Repr

open Value

/-- A Python dict with string keys, as an association list. -/
abbrev Dict := List (String × Value)

/-- Python `d.get(k)`: first binding of `k` (Python dicts hold each key once). -/
def dget : Dict → String → Option Value
  | [], _ => none
  | (k', v) :: t, k => if k' = k then some v else dget t k

/-- Python `d[k] = v`: replace the first binding of `k` in place, else append. -/
def dset : Dict → String → Value → Dict
  | [], k, v => [(k, v)]
  | (k', v') :: t, k, v => if k' = k then (k, v) :: t else (k', v') :: dset t k v

/-- Python `d.setdefault(k, v)`. -/
def dsetdefault (d : Dict) (k : String) (v : Value) : Dict :=
  match dget d k with
  | some _ => d
  | none => dset d k v

/-- Python `str.lower()` (`Char.toLower`, faithful on ASCII). -/
def lowerS (s : String) : String := ⟨s.data.map Char.toLower⟩

/-- Python `str.strip()`: drop whitespace from both ends. -/
def trimS (s : String) : String :=
  ⟨((s.data.dropWhile Char.isWhitespace).reverse.dropWhile Char.isWhitespace).reverse⟩

/-- The matching key used by `upsert_lead`, namely
`(x.get("Email") or "").lower()`.  (At every call site `Email` is a
string or absent.) -/
def emailOf (d : Dict) : String :=
  match dget d "Email" with
  | some (vStr s) => lowerS s
  | _ => ""

/-- Truthiness of a Python scalar (`bool(v)`), used by `or` chains. -/
def isTruthy : Value → Bool
  | vNone => false
  | vStr s => s ≠ ""
  | vNum q => q ≠ 0

/-- Python `lead.get("Budget") or 0`: falsy values collapse to the number 0. -/
def orZero (v : Option Value) : Value :=
  match v with
  | none => vNum 0
  | some v => if isTruthy v then v else vNum 0

/-- A `Rat` with denominator 1 built without normalisation (so that the
kernel can evaluate parsing on concrete inputs). -/
def mkIntRat (n : Nat) : Rat := ⟨Int.ofNat n, 1, one_ne_zero, Nat.coprime_one_right _⟩

def isDigitC (c : Char) : Bool := c.isDigit

def digitVal (c : Char) : Nat := c.toNat - 48

/-- Numeric value of a run of decimal digit characters (most significant
first). -/
def digitsVal (ds : List Char) : Nat := ds.foldl (fun a c => 10 * a + digitVal c) 0

def digitChar (d : Nat) : Char := Char.ofNat (48 + d)

/-- Decimal digits of `n`, most significant first (`fuel`-driven;
`fuel = n` always suffices). -/
def natDigitsAux : Nat → Nat → List Char
  | 0, _ => []
  | fuel + 1, n => if n = 0 then [] else natDigitsAux fuel (n / 10) ++ [digitChar (n % 10)]

def natDigits (n : Nat) : List Char := if n = 0 then ['0'] else natDigitsAux n n

/-- Negation `-q` when the flag is set (kernel-friendly: `Rat.neg` does not
normalise). -/
def negIf (b : Bool) (q : Rat) : Rat := if b then -q else q

/-- Model of Python `float(s)` on strings: optional surrounding
whitespace, optional sign, then `d+`, `d+.d*`, or `.d+` (plain decimal
literals; the program only ever feeds such strings to `float`).  Returns
`none` where Python raises `ValueError`. -/
def parseFloat (s : String) : Option Rat :=
  let cs := (s.data.dropWhile Char.isWhitespace).reverse.dropWhile Char.isWhitespace |>.reverse
  let (neg, cs) : Bool × List Char :=
    match cs with
    | '-' :: t => (true, t)
    | '+' :: t => (false, t)
    | t => (false, t)
  let ip := cs.takeWhile isDigitC
  let rest := cs.dropWhile isDigitC
  match rest with
  | [] => if ip.isEmpty then none else some (negIf neg (mkIntRat (digitsVal ip)))
  | '.' :: t =>
    let fp := t.takeWhile isDigitC
    if t.dropWhile isDigitC ≠ [] then none
    else if ip.isEmpty ∧ fp.isEmpty then none
    else some (negIf neg ((mkIntRat (digitsVal ip * 10 ^ fp.length + digitsVal fp)) /
      (mkIntRat (10 ^ fp.length))))
  | _ => none

/-- Python `float(v)` on a scalar: numbers pass through, strings are parsed,
`None` raises. -/
def pyFloat : Value → Option Rat
  | vNum q => some q
  | vStr s => parseFloat s
  | vNone => none

/-! ## upsert_lead -/

/-- The merge branch of `upsert_lead`: every field of the candidate
overwrites the existing record (`for k, v in lead.items(): existing[k] = v`),
then `Status` is forced to `"Updated"` when it currently reads `"New"` or
`"Updated"`, then `LastActionAt` is refreshed. -/
def mergeLead (now : String) (cand existing : Dict) : Dict :=
  let e := cand.foldl (fun e kv => dset e kv.1 kv.2) existing
  let e :=
    match dget e "Status" with
    | some (vStr s) => if s = "New" ∨ s = "Updated" then dset e "Status" (vStr "Updated") else e
    | _ => e
  dset e "LastActionAt" (vStr now)

/-- Walk the collection looking for the first record whose normalised
email equals that of the candidate (`next((i for i, x in enumerate(leads) ...))`);
merge there, or append the candidate at the end. -/
def upsertGo (now : String) (cand : Dict) : List Dict → List Dict
  | [] => [cand]
  | x :: rest =>
    if emailOf x = emailOf cand then mergeLead now cand x :: rest
    else x :: upsertGo now cand rest

/-- Model of `upsert_lead(leads, lead)` (the index search uses only the
email of the candidate, which the `setdefault` calls do not touch, so
defaulting first is equivalent to the source order). -/
def upsert_lead (now : String) (leads : List Dict) (cand : Dict) : List Dict :=
  let cand := dsetdefault cand "Status" (vStr "New")
  let cand := dsetdefault cand "LastActionAt" (vStr now)
  upsertGo now cand leads

/-! ## Artifacts (files the program writes) and auto_qualify -/

instance {ε α : Type} [DecidableEq ε] [DecidableEq α] : DecidableEq (Except ε α) := fun a b =>
  match a, b with
  | .error e, .error e' =>
    if h : e = e' then .isTrue (by rw [h]) else .isFalse (by intro hc; cases hc; exact h rfl)
  | .error _, .ok _ => .isFalse (by intro hc; cases hc)
  | .ok _, .error _ => .isFalse (by intro hc; cases hc)
  | .ok x, .ok y =>
    if h : x = y then .isTrue (by rw [h]) else .isFalse (by intro hc; cases hc; exact h rfl)

inductive Artifact where
  | emailMsg (recipient : Option Value) (subject : String) (body : String)
      (attach : List (String × String)) : Artifact
  | callRequest (leadEmail : Option Value) : Artifact
  | proposalFile (path : String) (content : String) : Artifact
  | logLine (msg : String) : Artifact
deriving DecidableEq, Repr

/-- Model of `auto_qualify(lead, threshold)`: `float(lead.get("Budget") or 0)`
(which raises on a non-numeric string, modelled as `.error ()`), compare
with the threshold, set `Status` and `LastActionAt`, and trigger a
simulated call when qualified.  Returns the status string, the updated
lead and the artifacts written. -/
def auto_qualify (now : String) (lead : Dict) (threshold : Rat) :
    Except Unit (String × Dict × List Artifact) :=
  match pyFloat (orZero (dget lead "Budget")) with
  | none => .error ()
  | some budget =>
    let qualified := threshold ≤ budget
    let status := if qualified then "Qualified" else "Unqualified"
    let lead := dset lead "Status" (vStr status)
    let lead := dset lead "LastActionAt" (vStr now)
    .ok (status, lead, if qualified then [Artifact.callRequest (dget lead "Email")] else [])

/-! ## Proposal generation -/

/-- Rendering of a scalar inside an f-string; numbers render
their integer part (every value the program feeds here is a string, an
absent field or `None`). -/
def pyStr : Value → String
  | vStr s => s
  | vNone => "None"
  | vNum q => ⟨(if q.num < 0 then ['-'] else []) ++ natDigits q.num.natAbs⟩

/-- Python `lead.get(k, default)` rendered into an f-string. -/
def pyStrD (d : Dict) (k : String) (dflt : String) : String :=
  match dget d k with
  | some v => pyStr v
  | none => dflt

/-- Python lead.get of UseCase, falling back to the legacy AutomationNeed field, rendered. -/
def useCaseText (d : Dict) : String :=
  match dget d "UseCase" with
  | some v => pyStr v
  | none => pyStrD d "AutomationNeed" ""

/-- The fixed tail of the fallback template (sections 1–6). -/
def sectionsText : String :=
  "## 1) Problem summary\nDescribe the current pain points and desired outcomes.\n\n" ++
  "## 2) Proposed automation solution\n- People: roles and responsibilities\n- Process: key steps and governance\n- Tech: LLM + orchestration + integrations (swappable)\n\n" ++
  "## 3) Architecture (bullets)\n- Data intake -> Processing -> LLM -> Output\n- Observability & logging\n- Security & access\n\n" ++
  "## 4) Timeline & milestones\n- Week 1–2: Discovery & design\n- Week 3–4: MVP build\n- Week 5–6: Pilot & iteration\n\n" ++
  "## 5) Pricing\n- Fixed fee within stated budget with clear deliverables.\n\n" ++
  "## 6) Next steps\n- Reply to confirm and schedule a working session.\n"

/-- The deterministic fallback template of `generate_proposal_md`,
piece for piece the f-string of the source. -/
def fallback_template (lead : Dict) : String :=
  "# Automation Proposal — " ++ pyStrD lead "Company" "(Company)" ++ "\n\n" ++
  "**Prospect:** " ++ pyStrD lead "Name" "" ++ "  \n" ++
  "**Email:** " ++ pyStrD lead "Email" "" ++ "  \n" ++
  "**Use case:** " ++ useCaseText lead ++ "  \n\n" ++
  sectionsText

/-- Model of `generate_proposal_md(lead, cfg)`.  The model call is abstracted as
`modelResult : Option String`: `some text` is a successful LLM response,
`none` covers both `LLM_AVAILABLE = False` and any exception from the
`ChatOllama` invocation (the `except` branch), in which case the
deterministic template is returned. -/
def generate_proposal_md (lead : Dict) (modelResult : Option String) : String :=
  match modelResult with
  | some text => text
  | none => fallback_template lead

/-- Filename stem produced by `save_proposal` for the company field:
keep alphanumerics, `_`, `-` and spaces, strip, turn spaces into
underscores, falling back to `"proposal"` when falsy/empty. -/
def sanitizeCompany (company : Option Value) : String :=
  let s := match company with
    | some (vStr s) => s
    | _ => ""
  let s := if s = "" then "proposal" else s
  let safe := (s.data.filter (fun ch => ch.isAlphanum ∨ ch = '_' ∨ ch = '-' ∨ ch = ' ')).asString
  let safe := trimS safe
  let safe := ⟨safe.data.map (fun ch => if ch = ' ' then '_' else ch)⟩
  if safe = "" then "proposal" else safe

/-- Path returned by `save_proposal(company, content)` (`ts` is the
timestamp used in the filename). -/
def save_proposal_path (ts : String) (company : Option Value) : String :=
  "proposals/" ++ sanitizeCompany company ++ "_" ++ ts ++ ".md"

/-! ## Webhook simulator -/

/-- Bool substring test: does `pat` occur inside `s` (Python `pat in s`)? -/
def startsWithL : List Char → List Char → Bool
  | [], _ => true
  | _ :: _, [] => false
  | p :: ps, c :: cs => p = c ∧ startsWithL ps cs

def hasSub (pat : List Char) : List Char → Bool
  | [] => pat.isEmpty
  | c :: cs => startsWithL pat (c :: cs) || hasSub pat cs

/-- The fixed proposal-request phrase list of the webhook handler. -/
def proposalKeywords : List String :=
  ["send a proposal", "yes proposal", "email the proposal", "want a proposal",
   "please send proposal", "yes"]

/-- The scan `any(kw in transcript.lower() for kw in [...])`. -/
def wantsProposalB (transcript : String) : Bool :=
  proposalKeywords.any (fun kw => hasSub kw.data (lowerS transcript).data)

/-- The `Send Event` handler of the webhook simulator tab, from the
branch on `event_type` down to the final `LastActionAt` refresh.
`ts` is the timestamp used by `save_proposal` for the proposal filename,
`modelResult` abstracts the LLM call as in `generate_proposal_md`. -/
def webhook_event (now ts : String) (lead : Dict) (eventType transcript : String)
    (modelResult : Option String) : Dict × List Artifact :=
  if eventType = "call.no_answer" ∨ eventType = "call.unanswered" then
    let l := dset lead "Status" (vStr "No Answer")
    let l := dset l "Notes" (vStr "No pickup from local outbound")
    let arts := [Artifact.emailMsg (dget l "Email") "Follow-up: Let\x27s schedule a quick call"
        "<p>Hi, we tried reaching you by phone about your automation project.</p><p>You can reply to this email to coordinate a time.</p><p>— Team</p>" [],
      Artifact.logLine "No answer — follow-up saved. #lead-no-pickup"]
    (dset l "LastActionAt" (vStr now), arts)
  else
    let l := dset lead "CallTranscript" (vStr ⟨transcript.data.take 15000⟩)
    if wantsProposalB transcript then
      let md := generate_proposal_md l modelResult
      let path := save_proposal_path ts (dget l "Company")
      let fname := sanitizeCompany (dget l "Company") ++ "_" ++ ts ++ ".md"
      let l := dset l "ProposalPath" (vStr path)
      let l := dset l "Status" (vStr "Proposal Sent")
      (dset l "LastActionAt" (vStr now),
        [Artifact.proposalFile path md,
         Artifact.emailMsg (dget l "Email") (pyStrD l "Company" "Your" ++ " Automation Proposal")
           "<p>Hi, attached is your tailored automation proposal. Happy to iterate.</p>"
           [(fname, path)],
         Artifact.logLine "Proposal saved for email"])
    else
      (dset l "LastActionAt" (vStr now),
        [Artifact.logLine "Call completed; no proposal requested or not detected."])

/-! ## CSV import (row normalisation loop) -/

/-- Lookup in the normalised row dict.  The dict comprehension
(keys stripped and lowercased, values stripped) keeps the *last* occurrence of a
duplicated key. -/
def rowGet (row : List (String × String)) (k : String) : Option String :=
  match row with
  | [] => none
  | (k', v) :: t => match rowGet t k with
    | some r => some r
    | none => if k' = k then some v else none

/-- Python `a or b` on optional strings (`None` and `""` are falsy). -/
def pyOrOpt (a b : Option String) : Option String :=
  match a with
  | some s => if s = "" then b else some s
  | none => b

/-- Python `a or ""` for an optional string. -/
def orEmpty (a : Option String) : String :=
  match a with
  | some s => s
  | none => ""

/-- Optional string to scalar: `None` stays `None`. -/
def optToVal : Option String → Value
  | some s => vStr s
  | none => vNone

/-- The normalised row dict: keys stripped and lowercased, values stripped
(the Python dict comprehension in the import loop). -/
def normRow (row : List (String × String)) : List (String × String) :=
  row.map (fun kv => (lowerS (trimS kv.1), trimS kv.2))

/-- Model of `float(norm.get("budget") or 0)`: `some` of the parsed value, `none`
where Python raises `ValueError`. -/
def budgetOf (norm : List (String × String)) : Option Rat :=
  match rowGet norm "budget" with
  | none => some 0
  | some s => if s = "" then some 0 else parseFloat s

/-- The string `norm.get("email") or ""`. -/
def emailField (norm : List (String × String)) : String :=
  orEmpty (rowGet norm "email")

/-- One iteration of the CSV import loop: normalise the row, build the
candidate lead (evaluating `float(norm.get("budget") or 0)`, which
raises — `.error ()` — on a non-numeric budget string), then either skip
it (`.ok none`) when the email is empty or hand it to `upsert_lead`
(`.ok (some lead)`). -/
def importRow (now : String) (row : List (String × String)) : Except Unit (Option Dict) :=
  let norm := normRow row
  let name := orEmpty (pyOrOpt (rowGet norm "name") (rowGet norm "prospect"))
  let email := emailField norm
  let company := optToVal (rowGet norm "company")
  let useCase := optToVal (pyOrOpt (rowGet norm "usecase") (rowGet norm "automationneed"))
  let budget := budgetOf norm
  let phone := match pyOrOpt (rowGet norm "phone") none with
    | some s => vStr s
    | none => vNone
  match budget with
  | none => .error ()
  | some b =>
    let lead : Dict :=
      [("Name", vStr name), ("Email", vStr email), ("Company", company),
       ("UseCase", useCase), ("Budget", vNum b), ("Phone", phone),
       ("Status", vStr "New"), ("LastActionAt", vStr now)]
    if email = "" then .ok none else .ok (some lead)

/-! ## The Leads-tab "Generate & Save Proposal" action -/

/-- The `Generate & Save Proposal` button handler (Leads tab), acting on
a found lead: generate the markdown, save it, set `ProposalPath` and
`Status` — and nothing else; in particular `LastActionAt` is not
touched. -/
def generate_and_save_proposal (ts : String) (lead : Dict) (modelResult : Option String) :
    Dict × List Artifact :=
  let md := generate_proposal_md lead modelResult
  let path := save_proposal_path ts (dget lead "Company")
  let fname := sanitizeCompany (dget lead "Company") ++ "_" ++ ts ++ ".md"
  let l := dset lead "ProposalPath" (vStr path)
  let l := dset l "Status" (vStr "Proposal Sent")
  (l, [Artifact.proposalFile path md,
       Artifact.emailMsg (dget l "Email") (pyStrD l "Company" "Your" ++ " Automation Proposal")
         "<p>Attached proposal is saved locally.</p>" [(fname, path)]])

/-! ## JSON persistence (`json.dumps` / `json.loads` on lead collections)

The persisted document is an array of flat objects whose values are
strings, numbers or `null` — exactly the shape of `Value`.  The model
emits the compact form (the cosmetic `indent=2` whitespace of the source
is omitted; `json.loads` skips whitespace, so round-trip behaviour is
unchanged) and escapes quotes, backslashes and control characters in
strings. -/

/-- Smallest `k` with `den ∣ 10 ^ k`, when one exists (it does exactly
when `den` has only the prime factors 2 and 5 — in particular for every
value a Python float can take). -/
def pow10Exp (den : Nat) : Option Nat :=
  (List.range (den + 1)).find? (fun k => 10 ^ k % den == 0)

/-- Characters of a JSON number denoting `|q|` (integer or decimal
notation).  Values whose denominator divides no power of 10 cannot
arise from the program; they print as `'0'` to keep the function
total. -/
def numBody (q : Rat) : List Char :=
  match pow10Exp q.den with
  | none => ['0']
  | some k =>
    let m := q.num.natAbs * (10 ^ k / q.den)
    if k = 0 then natDigits m
    else
      natDigits (m / 10 ^ k) ++ '.' ::
        (List.replicate (k - (natDigits (m % 10 ^ k)).length) '0' ++ natDigits (m % 10 ^ k))

/-- Characters of a JSON number denoting the rational `q`. -/
def numChars (q : Rat) : List Char :=
  (if q.num < 0 then ['-'] else []) ++ numBody q

def hexDigit (d : Nat) : Char := if d < 10 then Char.ofNat (48 + d) else Char.ofNat (87 + d)

def hex4 (n : Nat) : List Char :=
  [hexDigit (n / 4096 % 16), hexDigit (n / 256 % 16), hexDigit (n / 16 % 16), hexDigit (n % 16)]

/-- JSON string escaping of one character (quote, backslash, the named
control escapes, `\uXXXX` for the remaining control characters). -/
def escChar (c : Char) : List Char :=
  if c = '"' then ['\\', '"']
  else if c = '\\' then ['\\', '\\']
  else if c = '\n' then ['\\', 'n']
  else if c = '\t' then ['\\', 't']
  else if c = '\r' then ['\\', 'r']
  else if c = Char.ofNat 8 then ['\\', 'b']
  else if c = Char.ofNat 12 then ['\\', 'f']
  else if c.toNat < 32 then '\\' :: 'u' :: hex4 c.toNat
  else [c]

def strChars (s : String) : List Char :=
  '"' :: (s.data.map escChar).flatten ++ ['"']

def valueChars : Value → List Char
  | vNone => ['n', 'u', 'l', 'l']
  | vStr s => strChars s
  | vNum q => numChars q

def joinSep (c : Char) : List (List Char) → List Char
  | [] => []
  | [x] => x
  | x :: xs => x ++ c :: joinSep c xs

def obrace : Char := Char.ofNat 123

def cbrace : Char := Char.ofNat 125

def memberChars (kv : String × Value) : List Char :=
  strChars kv.1 ++ ':' :: valueChars kv.2

def leadChars (d : Dict) : List Char :=
  obrace :: joinSep ',' (d.map memberChars) ++ [cbrace]

def leadsChars (ls : List Dict) : List Char :=
  '[' :: joinSep ',' (ls.map leadChars) ++ [']']

/-- Model of `json.dumps(leads)` (compact form). -/
def dumps (ls : List Dict) : String := ⟨leadsChars ls⟩

def hexVal (c : Char) : Option Nat :=
  if '0' ≤ c ∧ c ≤ '9' then some (c.toNat - 48)
  else if 'a' ≤ c ∧ c ≤ 'f' then some (c.toNat - 87)
  else if 'A' ≤ c ∧ c ≤ 'F' then some (c.toNat - 55)
  else none

/-- JSON string body parser: input after the opening quote, accumulator
of characters read so far (reversed). -/
def parseStrBody (cs : List Char) (acc : List Char) : Option (String × List Char) :=
  match cs with
  | [] => none
  | c :: rest =>
    if c = '"' then some (⟨acc.reverse⟩, rest)
    else if c = '\\' then
      match rest with
      | [] => none
      | e :: rest =>
        if e = '"' then parseStrBody rest ('"' :: acc)
        else if e = '\\' then parseStrBody rest ('\\' :: acc)
        else if e = '/' then parseStrBody rest ('/' :: acc)
        else if e = 'n' then parseStrBody rest ('\n' :: acc)
        else if e = 't' then parseStrBody rest ('\t' :: acc)
        else if e = 'r' then parseStrBody rest ('\r' :: acc)
        else if e = 'b' then parseStrBody rest (Char.ofNat 8 :: acc)
        else if e = 'f' then parseStrBody rest (Char.ofNat 12 :: acc)
        else if e = 'u' then
          match rest with
          | h1 :: h2 :: h3 :: h4 :: r2 =>
            match hexVal h1, hexVal h2, hexVal h3, hexVal h4 with
            | some a, some b, some c2, some d =>
              parseStrBody r2 (Char.ofNat (4096 * a + 256 * b + 16 * c2 + d) :: acc)
            | _, _, _, _ => none
          | _ => none
        else none
    else parseStrBody rest (c :: acc)

/-- Maximal run of decimal digits at the head of the input. -/
def parseDigits (cs : List Char) : Option (List Char × List Char) :=
  let ds := cs.takeWhile isDigitC
  if ds.isEmpty then none else some (ds, cs.dropWhile isDigitC)

/-- Unsigned JSON number (integer or decimal). -/
def parseNumTail (cs : List Char) : Option (Rat × List Char) :=
  match parseDigits cs with
  | none => none
  | some (ds, rest) =>
    match rest with
    | [] => some (mkIntRat (digitsVal ds), [])
    | c :: r2 =>
      if c = '.' then
        match parseDigits r2 with
        | none => none
        | some (fs, r3) =>
          some ((mkIntRat (digitsVal ds * 10 ^ fs.length + digitsVal fs)) /
            (mkIntRat (10 ^ fs.length)), r3)
      else some (mkIntRat (digitsVal ds), c :: r2)

/-- One JSON scalar: `null`, a string, or a signed number. -/
def parseScalar (cs : List Char) : Option (Value × List Char) :=
  match cs with
  | [] => none
  | c :: rest =>
    if c = 'n' then
      match rest with
      | 'u' :: 'l' :: 'l' :: r2 => some (vNone, r2)
      | _ => none
    else if c = '"' then (parseStrBody rest []).map (fun p => (vStr p.1, p.2))
    else if c = '-' then (parseNumTail rest).map (fun p => (vNum (-p.1), p.2))
    else (parseNumTail (c :: rest)).map (fun p => (vNum p.1, p.2))

/-- Members of an object after the opening brace (at least one). -/
def parseMembers : Nat → List Char → Option (Dict × List Char)
  | 0, _ => none
  | fuel + 1, cs =>
    match cs with
    | '"' :: rest =>
      match parseStrBody rest [] with
      | none => none
      | some (k, r1) =>
        match r1 with
        | ':' :: r2 =>
          match parseScalar r2 with
          | none => none
          | some (v, r3) =>
            match r3 with
            | [] => none
            | c :: r4 =>
              if c = ',' then (parseMembers fuel r4).map (fun p => ((k, v) :: p.1, p.2))
              else if c = cbrace then some ([(k, v)], r4) else none
        | _ => none
    | _ => none

/-- One object. -/
def parseLead (fuel : Nat) (cs : List Char) : Option (Dict × List Char) :=
  match cs with
  | c1 :: c2 :: rest =>
    if c1 = obrace then
      if c2 = cbrace then some ([], rest) else parseMembers fuel (c2 :: rest)
    else none
  | _ => none

/-- Elements of the top-level array after the opening bracket (at least
one). -/
def parseLeadsItems : Nat → List Char → Option (List Dict × List Char)
  | 0, _ => none
  | fuel + 1, cs =>
    match parseLead fuel cs with
    | none => none
    | some (d, r1) =>
      match r1 with
      | [] => none
      | c :: r2 =>
        if c = ',' then (parseLeadsItems fuel r2).map (fun p => (d :: p.1, p.2))
        else if c = ']' then some ([d], r2) else none

/-- The top-level array. -/
def parseLeadsTop (fuel : Nat) (cs : List Char) : Option (List Dict × List Char) :=
  match cs with
  | [] => none
  | c :: rest =>
    if c = '[' then
      match rest with
      | [] => none
      | c2 :: rest2 => if c2 = ']' then some ([], rest2) else parseLeadsItems fuel (c2 :: rest2)
    else none

/-- Model of `json.loads` on a lead document: parse the array and insist the
whole input is consumed. -/
def loads (s : String) : Option (List Dict) :=
  match parseLeadsTop (s.data.length + 1) s.data with
  | some (ls, []) => some ls
  | _ => none

/-- The persisted document, `data/leads.json`, as `Option String`
(`none` = file absent). -/
def FileStore := Option String

/-- Model of `save_leads(leads)`: rewrite the whole document. -/
def save_leads (_fs : FileStore) (leads : List Dict) : FileStore :=
  some (dumps leads)

/-- Model of `load_leads()`: empty collection when the file is absent or its
content fails to parse. -/
def load_leads (fs : FileStore) : List Dict :=
  match fs with
  | none => []
  | some s =>
    match loads s with
    | some ls => ls
    | none => []

/-- A scalar the program can persist: the denominator of every number divides
a power of 10 (true of every Python float, whose denominator is a power
of 2). -/
def serializableV : Value → Prop
  | vNum q => (pow10Exp q.den).isSome
  | _ => True

instance : DecidablePred serializableV := fun v =>
  match v with
  | vNone => .isTrue trivial
  | vStr _ => .isTrue trivial
  | vNum q => (inferInstance : Decidable ((pow10Exp q.den).isSome = true))

/-- A collection the program can persist. -/
def serializableLeads (ls : List Dict) : Prop :=
  ∀ d ∈ ls, ∀ kv ∈ d, serializableV kv.2

instance : DecidablePred serializableLeads := fun ls =>
  decidable_of_iff (∀ d ∈ ls, ∀ kv ∈ d, serializableV kv.2) Iff.rfl

/-! ## Predicates used in claim statements -/

/-- Substring predicate: `t` occurs as a (contiguous) substring of `s`. -/
def strContains (s t : String) : Prop :=
  ∃ p q : List Char, s.data = p ++ t.data ++ q

/-- Propositional form of the webhook keyword scan: some fixed
proposal-request phrase occurs in the lowercased transcript. -/
def wantsProposalP (transcript : String) : Prop :=
  ∃ kw, kw ∈ proposalKeywords ∧ strContains (lowerS transcript) kw

/-- Number of email files (`save_email` calls) among the artifacts. -/
def countEmails (arts : List Artifact) : Nat :=
  arts.countP (fun a => match a with | .emailMsg _ _ _ _ => true | _ => false)

/-- Number of proposal files (`save_proposal` calls) among the artifacts. -/
def countProposals (arts : List Artifact) : Nat :=
  arts.countP (fun a => match a with | .proposalFile _ _ => true | _ => false)

/-- The candidate after the two `setdefault` calls of `upsert_lead`. -/
def candWithDefaults (now : String) (cand : Dict) : Dict :=
  dsetdefault (dsetdefault cand "Status" (vStr "New")) "LastActionAt" (vStr now)

/-- The input left after a printed digit run cannot start with a digit. -/
def headNotDigit (rest : List Char) : Prop :=
  ∀ c, rest.head? = some c → isDigitC c = false

/-- The input left after a printed scalar in a JSON document starts with
a separator (or is empty): not a digit and not a decimal point. -/
def sepAfter (rest : List Char) : Prop :=
  ∀ c, rest.head? = some c → isDigitC c = false ∧ c ≠ '.'

/-! ## Dictionary lemmas -/

theorem dget_dset_self (d : Dict) (k : String) (v : Value) : dget (dset d k v) k = some v := by
  induction d with
  | nil => simp [dset, dget]
  | cons kv t ih =>
    by_cases h : kv.1 = k
    · simp [dset, h, dget]
    · simp [dset, h, dget, ih]

theorem dget_dset_ne (d : Dict) {k k' : String} (v : Value) (h : k ≠ k') :
    dget (dset d k v) k' = dget d k' := by
  induction d with
  | nil => simp [dset, dget, h]
  | cons kv t ih =>
    by_cases h2 : kv.1 = k
    · simp [dset, h2, dget, h]
    · by_cases h3 : kv.1 = k'
      · simp [dset, h2, dget, h3, Ne.symm h]
      · simp [dset, h2, dget, h3, ih]

/-! ## Substring lemmas -/

theorem startsWithL_iff (p s : List Char) :
    startsWithL p s = true ↔ ∃ r, s = p ++ r := by
  induction p generalizing s with
  | nil => simp [startsWithL]
  | cons c p ih =>
    cases s with
    | nil => simp [startsWithL]
    | cons c' s =>
      simp only [startsWithL, Bool.and_eq_true, decide_eq_true_eq, ih]
      constructor
      · rintro ⟨rfl, r, rfl⟩
        exact ⟨r, rfl⟩
      · rintro ⟨r, hr⟩
        cases hr
        exact ⟨rfl, r, rfl⟩

theorem hasSub_iff (p s : List Char) :
    hasSub p s = true ↔ ∃ a b, s = a ++ p ++ b := by
  induction s with
  | nil =>
    simp only [hasSub, List.isEmpty_iff]
    constructor
    · rintro rfl
      exact ⟨[], [], rfl⟩
    · rintro ⟨a, b, hab⟩
      have h0 := congrArg List.length hab
      simp only [List.length_nil, List.length_append] at h0
      exact List.eq_nil_of_length_eq_zero (by omega)
  | cons c cs ih =>
    simp only [hasSub, Bool.or_eq_true, startsWithL_iff, ih]
    constructor
    · rintro (⟨r, hr⟩ | ⟨a, b, rfl⟩)
      · exact ⟨[], r, by simp [hr]⟩
      · exact ⟨c :: a, b, by simp⟩
    · rintro ⟨a, b, hab⟩
      cases a with
      | nil =>
        left
        exact ⟨b, by simpa using hab⟩
      | cons a0 a =>
        right
        simp only [List.cons_append] at hab
        injection hab with h1 h2
        exact ⟨a, b, h2⟩

theorem strContains_iff_hasSub (s t : String) :
    strContains s t ↔ hasSub t.data s.data = true := by
  unfold strContains
  exact (hasSub_iff t.data s.data).symm

theorem strContains_of_hasSub {s t : String} (h : hasSub t.data s.data = true) :
    strContains s t := (strContains_iff_hasSub s t).mpr h
      

theorem strContains_appendL (u : String) {s t : String} (h : strContains s t) :
    strContains (u ++ s) t := by
  obtain ⟨p, q, hp⟩ := h
  exact ⟨u.data ++ p, q, by simp [String.data_append, hp]⟩

theorem strContains_appendR (u : String) {s t : String} (h : strContains s t) :
    strContains (s ++ u) t := by
  obtain ⟨p, q, hp⟩ := h
  exact ⟨p, q ++ u.data, by simp [String.data_append, hp]⟩

theorem strContains_self (t : String) : strContains t t :=
  ⟨[], [], by simp⟩

/-! ## upsert walk and setdefault lemmas -/

theorem dget_dsetdefault_ne (d : Dict) {k k' : String} (v : Value) (h : k ≠ k') :
    dget (dsetdefault d k v) k' = dget d k' := by
  unfold dsetdefault
  cases dget d k with
  | none => exact dget_dset_ne d v h
  | some _ => rfl

theorem dget_dsetdefault_self_of_none (d : Dict) (k : String) (v : Value)
    (h : dget d k = none) : dget (dsetdefault d k v) k = some v := by
  simp only [dsetdefault, h]
  exact dget_dset_self d k v

theorem emailOf_candWithDefaults (now : String) (cand : Dict) :
    emailOf (candWithDefaults now cand) = emailOf cand := by
  unfold emailOf candWithDefaults
  rw [dget_dsetdefault_ne _ _ (by decide), dget_dsetdefault_ne _ _ (by decide)]

theorem upsertGo_append_of_no_match (now : String) (cand : Dict) (leads : List Dict)
    (h : ∀ x ∈ leads, emailOf x ≠ emailOf cand) :
    upsertGo now cand leads = leads ++ [cand] := by
  induction leads with
  | nil => rfl
  | cons x rest ih =>
    have hx : emailOf x ≠ emailOf cand := h x (by simp)
    simp only [upsertGo, if_neg hx]
    rw [ih (fun y hy => h y (by simp [hy]))]
    simp

theorem upsertGo_merge_at (now : String) (cand x : Dict) (pre post : List Dict)
    (hpre : ∀ y ∈ pre, emailOf y ≠ emailOf cand) (hx : emailOf x = emailOf cand) :
    upsertGo now cand (pre ++ x :: post) = pre ++ mergeLead now cand x :: post := by
  induction pre with
  | nil => simp [upsertGo, hx]
  | cons y pre ih =>
    have hy : emailOf y ≠ emailOf cand := hpre y (by simp)
    simp only [List.cons_append, upsertGo, if_neg hy]
    exact congrArg (y :: ·) (ih (fun z hz => hpre z (by simp [hz])))

theorem wantsProposal_iff (transcript : String) :
    wantsProposalB transcript = true ↔ wantsProposalP transcript := by
  unfold wantsProposalB wantsProposalP
  rw [List.any_eq_true]
  constructor
  · rintro ⟨kw, hkw, hs⟩
    exact ⟨kw, hkw, (strContains_iff_hasSub _ _).mpr hs⟩
  · rintro ⟨kw, hkw, hs⟩
    exact ⟨kw, hkw, (strContains_iff_hasSub _ _).mp hs⟩

/-! ## Fallback-template navigation lemmas -/

theorem fallback_contains_sections (lead : Dict) {h : String}
    (hh : strContains sectionsText h) : strContains (fallback_template lead) h := by
  unfold fallback_template
  exact strContains_appendL _ hh

theorem fallback_contains_company (lead : Dict) :
    strContains (fallback_template lead) (pyStrD lead "Company" "(Company)") := by
  unfold fallback_template
  exact strContains_appendR _ (strContains_appendR _ (strContains_appendR _
    (strContains_appendR _ (strContains_appendR _ (strContains_appendR _
    (strContains_appendR _ (strContains_appendR _ (strContains_appendR _
    (strContains_appendR _ (strContains_appendR _
    (strContains_appendL _ (strContains_self _))))))))))))

theorem fallback_contains_name (lead : Dict) :
    strContains (fallback_template lead) (pyStrD lead "Name" "") := by
  unfold fallback_template
  exact strContains_appendR _ (strContains_appendR _ (strContains_appendR _
    (strContains_appendR _ (strContains_appendR _ (strContains_appendR _
    (strContains_appendR _ (strContains_appendR _
    (strContains_appendL _ (strContains_self _)))))))))

theorem fallback_contains_email (lead : Dict) :
    strContains (fallback_template lead) (pyStrD lead "Email" "") := by
  unfold fallback_template
  exact strContains_appendR _ (strContains_appendR _ (strContains_appendR _
    (strContains_appendR _ (strContains_appendR _
    (strContains_appendL _ (strContains_self _))))))

theorem fallback_contains_usecase (lead : Dict) :
    strContains (fallback_template lead) (useCaseText lead) := by
  unfold fallback_template
  exact strContains_appendR _ (strContains_appendR _
    (strContains_appendL _ (strContains_self _)))

/-! ## Claims -/

/-- C1: the claim says an existing lead whose `Status` is `Qualified`
(or another terminal-ish status) keeps that status when a candidate is
upserted onto it.  The code instead copies the `Status` of the candidate
(every candidate carries one after `setdefault`) over the existing
record and then rewrites it to `"Updated"`, contradicting the comment in
the source, `keep status if already beyond New/Updated`: merging a fresh
candidate onto a `Qualified` lead yields `Status = "Updated"`. -/
theorem c1_requalified_lead_status_overwritten :
    (upsert_lead "2024-01-02T00:00:00+00:00"
        [[("Email", vStr "a@x.com"), ("Status", vStr "Qualified"),
          ("LastActionAt", vStr "2024-01-01T00:00:00+00:00")]]
        [("Email", vStr "A@x.com"), ("Status", vStr "New"),
         ("Budget", vNum (mkIntRat 20000))]).map (fun d => dget d "Status")
      = [some (vStr "Updated")] := by decide

/-- C2 counterexample: the Leads-tab `Generate & Save Proposal` action
mutates the lead (`ProposalPath`, `Status`) but leaves `LastActionAt`
exactly as it was, so `LastActionAt` does not reflect that mutation. -/
theorem c2_counterexample_proposal_action_keeps_last_action :
    dget (generate_and_save_proposal "20240102_000000"
        [("Email", vStr "a@x.com"), ("Status", vStr "Qualified"),
         ("LastActionAt", vStr "2024-01-01T00:00:00+00:00")] none).1 "LastActionAt"
      = some (vStr "2024-01-01T00:00:00+00:00") := by decide

/-- C2 as amended: `LastActionAt` is refreshed to the timestamp of the action
by `upsert_lead` (set to `now` on the merge branch; on the append branch
it is the own value of the candidate, defaulted to `now` when absent, which
every call site sets to the call-time timestamp), by `auto_qualify`
whenever it succeeds, and by both webhook branches — but the Leads-tab
generate-and-save-proposal action leaves `LastActionAt` untouched. -/
theorem c2_last_action_refresh_amended (now ts : String) (lead cand x : Dict)
    (pre post leads : List Dict) (t b : Rat) (et transcript : String) (mr : Option String)
    (hb : pyFloat (orZero (dget lead "Budget")) = some b)
    (hpre : ∀ y ∈ pre, emailOf y ≠ emailOf cand)
    (hx : emailOf x = emailOf cand)
    (hnone : ∀ y ∈ leads, emailOf y ≠ emailOf cand) :
    (∃ st l' arts, auto_qualify now lead t = .ok (st, l', arts) ∧
        dget l' "LastActionAt" = some (vStr now)) ∧
    dget (webhook_event now ts lead et transcript mr).1 "LastActionAt" = some (vStr now) ∧
    (upsert_lead now (pre ++ x :: post) cand =
        pre ++ mergeLead now (candWithDefaults now cand) x :: post ∧
      dget (mergeLead now (candWithDefaults now cand) x) "LastActionAt" = some (vStr now)) ∧
    (upsert_lead now leads cand = leads ++ [candWithDefaults now cand] ∧
      (dget cand "LastActionAt" = none →
        dget (candWithDefaults now cand) "LastActionAt" = some (vStr now))) ∧
    dget (generate_and_save_proposal ts lead mr).1 "LastActionAt" = dget lead "LastActionAt" := by
  refine ⟨?_, ?_, ⟨?_, ?_⟩, ⟨?_, ?_⟩, ?_⟩
  · simp only [auto_qualify, hb]
    exact ⟨_, _, _, rfl, dget_dset_self _ _ _⟩
  · unfold webhook_event
    split
    · exact dget_dset_self _ _ _
    · split
      · exact dget_dset_self _ _ _
      · exact dget_dset_self _ _ _
  · unfold upsert_lead
    exact upsertGo_merge_at now (candWithDefaults now cand) x pre post
      (fun y hy => by rw [emailOf_candWithDefaults]; exact hpre y hy)
      (by rw [emailOf_candWithDefaults]; exact hx)
  · unfold mergeLead
    exact dget_dset_self _ _ _
  · unfold upsert_lead
    exact upsertGo_append_of_no_match now (candWithDefaults now cand) leads
      (fun y hy => by rw [emailOf_candWithDefaults]; exact hnone y hy)
  · intro hla
    unfold candWithDefaults
    exact dget_dsetdefault_self_of_none _ _ _
      (by rw [dget_dsetdefault_ne cand (vStr "New") (by decide)]; exact hla)
  · unfold generate_and_save_proposal
    rw [dget_dset_ne _ _ (by decide), dget_dset_ne _ _ (by decide)]

/-- C2 witness: a concrete instantiation of one conjunct of the amended
claim, the one about `auto_qualify`. -/
theorem c2_last_action_refresh_amended_witness :
    ∃ st l' arts,
      auto_qualify "2024-01-02T00:00:00+00:00" [("Budget", vNum (mkIntRat 5000))] (mkIntRat 1000)
        = .ok (st, l', arts) ∧
      dget l' "LastActionAt" = some (vStr "2024-01-02T00:00:00+00:00") :=
  (c2_last_action_refresh_amended "2024-01-02T00:00:00+00:00" "20240102_000000"
    [("Budget", vNum (mkIntRat 5000))] [("Email", vStr "c@d.e")] [("Email", vStr "c@d.e")]
    [] [] [] (mkIntRat 1000) (mkIntRat 5000) "call.completed" "hello" none
    (by decide) (by simp) rfl (by simp)).1

/-- C3 counterexample: a candidate with no email merges into an existing
record that also has no email — the collection keeps one record where
the claim demands an appended second record. -/
theorem c3_counterexample_empty_emails_merge :
    (upsert_lead "2024-01-02T00:00:00+00:00" [[("Name", vStr "A")]] [("Name", vStr "B")]).length
      = 1 := by decide

/-- C3 as amended: a candidate with empty/missing email never matches a
record with a non-empty email (when every existing record has a
non-empty email the candidate is appended), but it does match the first
existing record whose email is also empty or missing and is merged into
it; the call sites filter empty-email candidates out before reaching
`upsert_lead`. -/
theorem c3_empty_email_matching_amended (now : String) (leads : List Dict) (cand : Dict)
    (h : emailOf cand = "") :
    ((∀ x ∈ leads, emailOf x ≠ "") →
      upsert_lead now leads cand = leads ++ [candWithDefaults now cand]) ∧
    (∀ pre x post, leads = pre ++ x :: post → (∀ y ∈ pre, emailOf y ≠ "") → emailOf x = "" →
      upsert_lead now leads cand = pre ++ mergeLead now (candWithDefaults now cand) x :: post) := by
  have hc : emailOf (candWithDefaults now cand) = "" := by
    rw [emailOf_candWithDefaults]; exact h
  constructor
  · intro hall
    show upsertGo now (candWithDefaults now cand) leads = leads ++ [candWithDefaults now cand]
    exact upsertGo_append_of_no_match now _ leads (fun y hy => by rw [hc]; exact hall y hy)
  · rintro pre x post rfl hpre hx
    show upsertGo now (candWithDefaults now cand) (pre ++ x :: post)
      = pre ++ mergeLead now (candWithDefaults now cand) x :: post
    exact upsertGo_merge_at now _ x pre post (fun y hy => by rw [hc]; exact hpre y hy)
      (by rw [hc]; exact hx)

/-- C3 witness: concrete instantiation (all existing records have
non-empty emails, so the empty-email candidate is appended). -/
theorem c3_empty_email_matching_amended_witness :
    upsert_lead "2024-01-02T00:00:00+00:00" [[("Email", vStr "a@x.com")]] [("Name", vStr "B")]
      = [[("Email", vStr "a@x.com")]] ++
        [candWithDefaults "2024-01-02T00:00:00+00:00" [("Name", vStr "B")]] :=
  (c3_empty_email_matching_amended "2024-01-02T00:00:00+00:00" [[("Email", vStr "a@x.com")]]
    [("Name", vStr "B")] (by decide)).1 (by decide)

/-- C4 counterexample: on a lead whose `Budget` is the non-numeric
string `"abc"`, `auto_qualify` raises (`float("abc")` has no exception
handler) instead of treating the budget as 0 and setting
`Status = "Unqualified"` as the claim requires. -/
theorem c4_counterexample_unparseable_budget_raises :
    auto_qualify "2024-01-02T00:00:00+00:00" [("Budget", vStr "abc")] (mkIntRat 10000)
      = .error () := by decide

/-- C4 as amended: whenever `float(lead.get("Budget") or 0)` evaluates
(in particular budget taken as 0 when the field is missing or falsy),
`auto_qualify` sets `Status` to `Qualified` iff the budget is ≥ the
threshold and to `Unqualified` otherwise, triggers a call exactly when
qualified, and running it again on the unchanged result yields the same
status; but a non-numeric string budget raises instead of defaulting
to 0. -/
theorem c4_auto_qualify_amended (now now2 : String) (lead : Dict) (t b : Rat)
    (hb : pyFloat (orZero (dget lead "Budget")) = some b) :
    ∃ l' arts,
      auto_qualify now lead t
        = .ok (if t ≤ b then "Qualified" else "Unqualified", l', arts) ∧
      dget l' "Status" = some (vStr (if t ≤ b then "Qualified" else "Unqualified")) ∧
      (arts ≠ [] ↔ t ≤ b) ∧
      (∃ l'' arts'', auto_qualify now2 l' t
        = .ok (if t ≤ b then "Qualified" else "Unqualified", l'', arts'')) := by
  have hE : auto_qualify now lead t
      = .ok (if t ≤ b then "Qualified" else "Unqualified",
          dset (dset lead "Status" (vStr (if t ≤ b then "Qualified" else "Unqualified")))
            "LastActionAt" (vStr now),
          if t ≤ b then
            [Artifact.callRequest (dget (dset (dset lead "Status"
              (vStr (if t ≤ b then "Qualified" else "Unqualified")))
                "LastActionAt" (vStr now)) "Email")]
          else []) := by
    simp only [auto_qualify, hb]
  have hbudget :
      dget (dset (dset lead "Status"
          (vStr (if t ≤ b then "Qualified" else "Unqualified"))) "LastActionAt" (vStr now))
        "Budget" = dget lead "Budget" := by
    rw [dget_dset_ne _ _ (by decide), dget_dset_ne _ _ (by decide)]
  refine ⟨_, _, hE, ?_, ?_, ?_⟩
  · rw [dget_dset_ne _ _ (by decide)]
    exact dget_dset_self _ _ _
  · by_cases hq : t ≤ b <;> simp [hq]
  · have hb2 : pyFloat (orZero (dget (dset (dset lead "Status"
        (vStr (if t ≤ b then "Qualified" else "Unqualified"))) "LastActionAt" (vStr now))
          "Budget")) = some b := by rw [hbudget]; exact hb
    have hE2 : auto_qualify now2 (dset (dset lead "Status"
        (vStr (if t ≤ b then "Qualified" else "Unqualified"))) "LastActionAt" (vStr now)) t
        = .ok (if t ≤ b then "Qualified" else "Unqualified",
            dset (dset (dset (dset lead "Status"
                (vStr (if t ≤ b then "Qualified" else "Unqualified"))) "LastActionAt" (vStr now))
              "Status" (vStr (if t ≤ b then "Qualified" else "Unqualified")))
              "LastActionAt" (vStr now2),
            if t ≤ b then
              [Artifact.callRequest (dget (dset (dset (dset (dset lead "Status"
                (vStr (if t ≤ b then "Qualified" else "Unqualified"))) "LastActionAt" (vStr now))
                "Status" (vStr (if t ≤ b then "Qualified" else "Unqualified")))
                "LastActionAt" (vStr now2)) "Email")]
            else []) := by
      simp only [auto_qualify, hb2]
    exact ⟨_, _, hE2⟩

/-- C4 witness: a concrete instantiation of the amended claim. -/
theorem c4_auto_qualify_amended_witness :
    ∃ l' arts,
      auto_qualify "T1" [("Budget", vNum (mkIntRat 15000))] (mkIntRat 10000)
        = .ok (if (mkIntRat 10000) ≤ (mkIntRat 15000) then "Qualified" else "Unqualified",
            l', arts) ∧
      dget l' "Status"
        = some (vStr (if (mkIntRat 10000) ≤ (mkIntRat 15000) then "Qualified"
            else "Unqualified")) ∧
      (arts ≠ [] ↔ (mkIntRat 10000) ≤ (mkIntRat 15000)) ∧
      (∃ l'' arts'', auto_qualify "T2" l' (mkIntRat 10000)
        = .ok (if (mkIntRat 10000) ≤ (mkIntRat 15000) then "Qualified" else "Unqualified",
            l'', arts'')) :=
  c4_auto_qualify_amended "T1" "T2" [("Budget", vNum (mkIntRat 15000))]
    (mkIntRat 10000) (mkIntRat 15000) (by decide)

/-- C5 counterexample: a CSV row with a well-formed email but the
non-numeric budget string `"abc"` makes the import loop raise
(`float("abc")`), instead of being added with `Budget = 0` as the claim
requires. -/
theorem c5_counterexample_nonnumeric_budget_raises :
    importRow "2024-01-02T00:00:00+00:00" [("email", "a@b.com"), ("budget", "abc")]
      = .error () := by decide

/-- C5 as amended: a row whose email is empty or missing is skipped
(never added) whenever its budget field evaluates; a row whose budget
field is missing or empty is imported with `Budget = 0`; but a
non-numeric budget string raises an error instead of defaulting to 0,
so such a row is neither added nor skipped — the loop aborts. -/
theorem c5_import_rules_amended (now : String) (row : List (String × String)) :
    (∀ b : Rat, budgetOf (normRow row) = some b → emailField (normRow row) = "" →
      importRow now row = .ok none) ∧
    ((rowGet (normRow row) "budget" = none ∨ rowGet (normRow row) "budget" = some "") →
      emailField (normRow row) ≠ "" →
      ∃ d, importRow now row = .ok (some d) ∧ dget d "Budget" = some (vNum 0) ∧
        dget d "Email" = some (vStr (emailField (normRow row)))) ∧
    (budgetOf (normRow row) = none → importRow now row = .error ()) := by
  refine ⟨?_, ?_, ?_⟩
  · intro b hbud hem
    simp only [importRow, hbud, hem]
    simp
  · intro hbud hem
    have hb0 : budgetOf (normRow row) = some 0 := by
      unfold budgetOf
      rcases hbud with h | h <;> simp [h]
    have hE : importRow now row
        = .ok (some [("Name", vStr (orEmpty (pyOrOpt (rowGet (normRow row) "name")
              (rowGet (normRow row) "prospect")))),
            ("Email", vStr (emailField (normRow row))),
            ("Company", optToVal (rowGet (normRow row) "company")),
            ("UseCase", optToVal (pyOrOpt (rowGet (normRow row) "usecase")
              (rowGet (normRow row) "automationneed"))),
            ("Budget", vNum 0),
            ("Phone", match pyOrOpt (rowGet (normRow row) "phone") none with
              | some s => vStr s
              | none => vNone),
            ("Status", vStr "New"), ("LastActionAt", vStr now)]) := by
      simp only [importRow, hb0, if_neg hem]
    refine ⟨_, hE, ?_, ?_⟩
    · simp [dget]
    · simp [dget]
  · intro hbud
    simp only [importRow, hbud]

/-- C5 witness: a concrete instantiation (empty email, empty budget —
the row is skipped). -/
theorem c5_import_rules_amended_witness :
    importRow "T0" [("email", ""), ("budget", "")] = .ok none :=
  (c5_import_rules_amended "T0" [("email", ""), ("budget", "")]).1 0 (by decide) (by decide)

set_option maxRecDepth 40000

/-- C6: when the model call fails (backend absent or erroring),
`generate_proposal_md` does not propagate the failure: it returns the
deterministic fallback template, which contains all six fixed section
headers and, verbatim, the company text of the lead (the `"(Company)"`
placeholder when the field is missing), name text, email text and
use-case text (falling back to the legacy `AutomationNeed` field when
`UseCase` is absent — the semantics of `pyStrD` and `useCaseText`). -/
theorem c6_proposal_fallback (lead : Dict) :
    generate_proposal_md lead none = fallback_template lead ∧
    strContains (fallback_template lead) "## 1) Problem summary" ∧
    strContains (fallback_template lead) "## 2) Proposed automation solution" ∧
    strContains (fallback_template lead) "## 3) Architecture (bullets)" ∧
    strContains (fallback_template lead) "## 4) Timeline & milestones" ∧
    strContains (fallback_template lead) "## 5) Pricing" ∧
    strContains (fallback_template lead) "## 6) Next steps" ∧
    strContains (fallback_template lead) (pyStrD lead "Company" "(Company)") ∧
    strContains (fallback_template lead) (pyStrD lead "Name" "") ∧
    strContains (fallback_template lead) (pyStrD lead "Email" "") ∧
    strContains (fallback_template lead) (useCaseText lead) :=
  ⟨rfl,
   fallback_contains_sections lead (strContains_of_hasSub (by decide)),
   fallback_contains_sections lead (strContains_of_hasSub (by decide)),
   fallback_contains_sections lead (strContains_of_hasSub (by decide)),
   fallback_contains_sections lead (strContains_of_hasSub (by decide)),
   fallback_contains_sections lead (strContains_of_hasSub (by decide)),
   fallback_contains_sections lead (strContains_of_hasSub (by decide)),
   fallback_contains_company lead,
   fallback_contains_name lead,
   fallback_contains_email lead,
   fallback_contains_usecase lead⟩

/-- C7: for a webhook event that is not no-answer/unanswered, a proposal
artifact is produced iff the lowercased transcript contains one of the
fixed proposal-request phrases (a list that includes the bare word
`"yes"`); on a match, `Status` becomes `Proposal Sent`, `ProposalPath`
is set and exactly one proposal email is written; on no match, only the
"call completed" notification is logged and `Status` is unchanged. -/
theorem c7_webhook_keyword_detection (now ts : String) (lead : Dict)
    (et transcript : String) (mr : Option String)
    (h1 : et ≠ "call.no_answer") (h2 : et ≠ "call.unanswered") :
    "yes" ∈ proposalKeywords ∧
    ((∃ p c, Artifact.proposalFile p c ∈ (webhook_event now ts lead et transcript mr).2) ↔
      wantsProposalP transcript) ∧
    (wantsProposalP transcript →
      dget (webhook_event now ts lead et transcript mr).1 "Status"
          = some (vStr "Proposal Sent") ∧
      (∃ path, dget (webhook_event now ts lead et transcript mr).1 "ProposalPath"
          = some (vStr path)) ∧
      countEmails (webhook_event now ts lead et transcript mr).2 = 1) ∧
    (¬ wantsProposalP transcript →
      dget (webhook_event now ts lead et transcript mr).1 "Status" = dget lead "Status" ∧
      (webhook_event now ts lead et transcript mr).2
          = [Artifact.logLine "Call completed; no proposal requested or not detected."]) := by
  have hcond : ¬(et = "call.no_answer" ∨ et = "call.unanswered") := by
    rintro (h | h)
    · exact h1 h
    · exact h2 h
  refine ⟨by decide, ?_, ?_, ?_⟩
  · by_cases hw : wantsProposalB transcript = true
    · simp only [webhook_event, if_neg hcond, if_pos hw]
      rw [← wantsProposal_iff]
      simp [hw]
    · simp only [webhook_event, if_neg hcond, if_neg hw]
      rw [← wantsProposal_iff]
      simp [hw]
  · intro hwants
    have hw : wantsProposalB transcript = true := (wantsProposal_iff transcript).mpr hwants
    refine ⟨?_, ?_, ?_⟩
    · simp only [webhook_event, if_neg hcond, if_pos hw]
      rw [dget_dset_ne _ _ (by decide)]
      exact dget_dset_self _ _ _
    · simp only [webhook_event, if_neg hcond, if_pos hw]
      refine ⟨save_proposal_path ts (dget (dset lead "CallTranscript"
          (vStr ⟨transcript.data.take 15000⟩)) "Company"), ?_⟩
      rw [dget_dset_ne _ _ (by decide), dget_dset_ne _ _ (by decide)]
      exact dget_dset_self _ _ _
    · simp only [webhook_event, if_neg hcond, if_pos hw]
      rfl
  · intro hwants
    have hw : ¬ wantsProposalB transcript = true :=
      fun hc => hwants ((wantsProposal_iff transcript).mp hc)
    refine ⟨?_, ?_⟩
    · simp only [webhook_event, if_neg hcond, if_neg hw]
      rw [dget_dset_ne _ _ (by decide), dget_dset_ne _ _ (by decide)]
    · simp only [webhook_event, if_neg hcond, if_neg hw]

/-- C7 witness: the example transcript of the spec requests a proposal:
status becomes `Proposal Sent`. -/
theorem c7_webhook_keyword_detection_witness :
    wantsProposalP "Great chat. Please send a proposal." ∧
    dget (webhook_event "T1" "20240102_000000" [("Email", vStr "a@b.c")] "call.completed"
        "Great chat. Please send a proposal." none).1 "Status" = some (vStr "Proposal Sent") :=
  have hw : wantsProposalP "Great chat. Please send a proposal." :=
    (wantsProposal_iff _).mp (by decide)
  ⟨hw,
   ((c7_webhook_keyword_detection "T1" "20240102_000000" [("Email", vStr "a@b.c")]
      "call.completed" "Great chat. Please send a proposal." none
      (by decide) (by decide)).2.2.1 hw).1⟩

/-- C8: a `call.no_answer` or `call.unanswered` event always sets
`Status = "No Answer"` and the fixed `Notes` string, writes exactly one
follow-up email artifact and no proposal artifact, regardless of the
transcript. -/
theorem c8_no_answer_handling (now ts : String) (lead : Dict)
    (et transcript : String) (mr : Option String)
    (h : et = "call.no_answer" ∨ et = "call.unanswered") :
    dget (webhook_event now ts lead et transcript mr).1 "Status" = some (vStr "No Answer") ∧
    dget (webhook_event now ts lead et transcript mr).1 "Notes"
        = some (vStr "No pickup from local outbound") ∧
    countEmails (webhook_event now ts lead et transcript mr).2 = 1 ∧
    countProposals (webhook_event now ts lead et transcript mr).2 = 0 := by
  refine ⟨?_, ?_, ?_, ?_⟩
  · simp only [webhook_event, if_pos h]
    rw [dget_dset_ne _ _ (by decide), dget_dset_ne _ _ (by decide)]
    exact dget_dset_self _ _ _
  · simp only [webhook_event, if_pos h]
    rw [dget_dset_ne _ _ (by decide)]
    exact dget_dset_self _ _ _
  · simp only [webhook_event, if_pos h]
    rfl
  · simp only [webhook_event, if_pos h]
    rfl

/-- C8 witness: concrete no-answer event with a transcript that would
otherwise request a proposal. -/
theorem c8_no_answer_handling_witness :
    dget (webhook_event "T1" "20240102_000000" [("Email", vStr "a@b.c")] "call.no_answer"
        "yes please send a proposal" none).1 "Status" = some (vStr "No Answer") :=
  (c8_no_answer_handling "T1" "20240102_000000" [("Email", vStr "a@b.c")] "call.no_answer"
    "yes please send a proposal" none (Or.inl rfl)).1

/-- C9: every completed-call event stores `CallTranscript` as the
transcript truncated to its first 15000 characters: unchanged when the
transcript has at most 15000 characters, exactly the first 15000
characters otherwise. -/
theorem c9_transcript_truncation (now ts : String) (lead : Dict)
    (et transcript : String) (mr : Option String)
    (h1 : et ≠ "call.no_answer") (h2 : et ≠ "call.unanswered") :
    dget (webhook_event now ts lead et transcript mr).1 "CallTranscript"
        = some (vStr ⟨transcript.data.take 15000⟩) ∧
    (transcript.data.length ≤ 15000 → (⟨transcript.data.take 15000⟩ : String) = transcript) ∧
    (15000 ≤ transcript.data.length → (transcript.data.take 15000).length = 15000) := by
  have hcond : ¬(et = "call.no_answer" ∨ et = "call.unanswered") := by
    rintro (h | h)
    · exact h1 h
    · exact h2 h
  refine ⟨?_, ?_, ?_⟩
  · by_cases hw : wantsProposalB transcript = true
    · simp only [webhook_event, if_neg hcond, if_pos hw]
      rw [dget_dset_ne _ _ (by decide), dget_dset_ne _ _ (by decide),
        dget_dset_ne _ _ (by decide)]
      exact dget_dset_self _ _ _
    · simp only [webhook_event, if_neg hcond, if_neg hw]
      rw [dget_dset_ne _ _ (by decide)]
      exact dget_dset_self _ _ _
  · intro hlen
    cases transcript with
    | mk data => exact congrArg String.mk (List.take_of_length_le hlen)
  · intro hlen
    rw [List.length_take]
    omega

/-- C9 witness: a short transcript is stored unchanged. -/
theorem c9_transcript_truncation_witness :
    dget (webhook_event "T1" "20240102_000000" [("Email", vStr "a@b.c")] "call.completed"
        "short chat" none).1 "CallTranscript" = some (vStr ⟨"short chat".data.take 15000⟩) :=
  (c9_transcript_truncation "T1" "20240102_000000" [("Email", vStr "a@b.c")] "call.completed"
    "short chat" none (by decide) (by decide)).1

/-! ## Digit-printer lemmas (for the JSON round trip) -/

theorem digitChar_isDigit : ∀ d < 10, (digitChar d).isDigit = true := by decide

theorem digitVal_digitChar : ∀ d < 10, digitVal (digitChar d) = d := by decide

theorem natDigitsAux_digits :
    ∀ fuel n, n ≤ fuel → ∀ c ∈ natDigitsAux fuel n, c.isDigit = true := by
  intro fuel
  induction fuel with
  | zero => intro n _ c hc; simp [natDigitsAux] at hc
  | succ f ih =>
    intro n hn c hc
    by_cases h0 : n = 0
    · simp [natDigitsAux, h0] at hc
    · simp only [natDigitsAux, if_neg h0, List.mem_append, List.mem_singleton] at hc
      rcases hc with hc | rfl
      · exact ih (n / 10) (by omega) c hc
      · exact digitChar_isDigit (n % 10) (Nat.mod_lt n (by omega))

theorem natDigits_digits (n : Nat) : ∀ c ∈ natDigits n, c.isDigit = true := by
  intro c hc
  unfold natDigits at hc
  by_cases h0 : n = 0
  · simp [h0] at hc
    subst hc
    decide
  · rw [if_neg h0] at hc
    exact natDigitsAux_digits n n le_rfl c hc

theorem natDigitsAux_ne_nil (fuel n : Nat) (hn : n ≤ fuel) (h0 : n ≠ 0) :
    natDigitsAux fuel n ≠ [] := by
  cases fuel with
  | zero => omega
  | succ f =>
    simp only [natDigitsAux, if_neg h0]
    intro h
    have := congrArg List.length h
    simp at this

theorem natDigits_ne_nil (n : Nat) : natDigits n ≠ [] := by
  unfold natDigits
  by_cases h0 : n = 0
  · simp [h0]
  · rw [if_neg h0]
    exact natDigitsAux_ne_nil n n le_rfl h0

theorem foldl_digitsVal_append (xs ys : List Char) (a : Nat) :
    (xs ++ ys).foldl (fun a c => 10 * a + digitVal c) a
      = ys.foldl (fun a c => 10 * a + digitVal c)
          (xs.foldl (fun a c => 10 * a + digitVal c) a) := by
  rw [List.foldl_append]

theorem natDigitsAux_foldl :
    ∀ fuel n a, n ≤ fuel →
      (natDigitsAux fuel n).foldl (fun a c => 10 * a + digitVal c) a
        = a * 10 ^ (natDigitsAux fuel n).length + n := by
  intro fuel
  induction fuel with
  | zero =>
    intro n a hn
    have : n = 0 := by omega
    simp [natDigitsAux, this]
  | succ f ih =>
    intro n a hn
    by_cases h0 : n = 0
    · simp [natDigitsAux, h0]
    · simp only [natDigitsAux, if_neg h0]
      rw [foldl_digitsVal_append]
      have hdiv : n / 10 ≤ f := by
        have hlt : n / 10 < n := Nat.div_lt_self (Nat.pos_of_ne_zero h0) (by decide)
        omega
      rw [ih (n / 10) a hdiv]
      simp only [List.foldl_cons, List.foldl_nil, List.length_append, List.length_singleton]
      rw [digitVal_digitChar (n % 10) (Nat.mod_lt n (by omega))]
      rw [pow_succ]
      have hm : 10 * (n / 10) + n % 10 = n := Nat.div_add_mod n 10
      ring_nf
      omega

theorem digitsVal_natDigits (n : Nat) : digitsVal (natDigits n) = n := by
  unfold natDigits digitsVal
  by_cases h0 : n = 0
  · simp [h0]
    decide
  · rw [if_neg h0]
    rw [natDigitsAux_foldl n n 0 le_rfl]
    simp

theorem natDigitsAux_length_le :
    ∀ fuel n k, n ≤ fuel → n < 10 ^ k → (natDigitsAux fuel n).length ≤ k := by
  intro fuel
  induction fuel with
  | zero => intro n k _ _; simp [natDigitsAux]
  | succ f ih =>
    intro n k hn hk
    by_cases h0 : n = 0
    · simp [natDigitsAux, h0]
    · simp only [natDigitsAux, if_neg h0, List.length_append, List.length_singleton]
      have hkpos : k ≠ 0 := by
        intro h
        rw [h] at hk
        simp at hk
        omega
      have hdiv : n / 10 ≤ f := by
        have hlt : n / 10 < n := Nat.div_lt_self (Nat.pos_of_ne_zero h0) (by decide)
        omega
      have hdivlt : n / 10 < 10 ^ (k - 1) := by
        rw [Nat.div_lt_iff_lt_mul (by omega)]
        calc n < 10 ^ k := hk
        _ = 10 ^ (k - 1) * 10 := by
          rw [← pow_succ]
          congr 1
          omega
      have := ih (n / 10) (k - 1) hdiv hdivlt
      omega

theorem natDigits_length_le (n k : Nat) (hk : 0 < k) (hn : n < 10 ^ k) :
    (natDigits n).length ≤ k := by
  unfold natDigits
  by_cases h0 : n = 0
  · simp [h0]; omega
  · rw [if_neg h0]
    exact natDigitsAux_length_le n n k le_rfl hn

theorem foldl_replicate_zero (z : Nat) :
    (List.replicate z '0').foldl (fun a c => 10 * a + digitVal c) 0 = 0 := by
  induction z with
  | zero => rfl
  | succ m ih =>
    simp only [List.replicate_succ, List.foldl_cons]
    have h : 10 * 0 + digitVal '0' = 0 := by decide
    rw [h, ih]

theorem digitsVal_pad (z : Nat) (ds : List Char) :
    digitsVal (List.replicate z '0' ++ ds) = digitsVal ds := by
  unfold digitsVal
  rw [List.foldl_append, foldl_replicate_zero]

/-! ## Scanning lemmas -/

theorem takeWhile_append_all (p : Char → Bool) (xs ys : List Char)
    (h : ∀ x ∈ xs, p x = true) : (xs ++ ys).takeWhile p = xs ++ ys.takeWhile p := by
  induction xs with
  | nil => simp
  | cons x t ih =>
    simp [List.takeWhile_cons, h x (by simp), ih (fun y hy => h y (by simp [hy]))]

theorem dropWhile_append_all (p : Char → Bool) (xs ys : List Char)
    (h : ∀ x ∈ xs, p x = true) : (xs ++ ys).dropWhile p = ys.dropWhile p := by
  induction xs with
  | nil => simp
  | cons x t ih =>
    simp [List.dropWhile_cons, h x (by simp), ih (fun y hy => h y (by simp [hy]))]

theorem sepAfter_headNot {rest : List Char} (h : sepAfter rest) : headNotDigit rest :=
  fun c hc => (h c hc).1

theorem takeWhile_nil_of_headNot (rest : List Char) (h : headNotDigit rest) :
    rest.takeWhile isDigitC = [] := by
  cases rest with
  | nil => rfl
  | cons c t => simp [List.takeWhile_cons, h c rfl]

theorem dropWhile_id_of_headNot (rest : List Char) (h : headNotDigit rest) :
    rest.dropWhile isDigitC = rest := by
  cases rest with
  | nil => rfl
  | cons c t => simp [List.dropWhile_cons, h c rfl]

theorem parseDigits_roundtrip (ds rest : List Char) (hds : ∀ c ∈ ds, isDigitC c = true)
    (hne : ds ≠ []) (hrest : headNotDigit rest) :
    parseDigits (ds ++ rest) = some (ds, rest) := by
  unfold parseDigits
  rw [takeWhile_append_all _ _ _ hds, dropWhile_append_all _ _ _ hds,
    takeWhile_nil_of_headNot rest hrest, dropWhile_id_of_headNot rest hrest]
  simp [List.isEmpty_iff, hne]

theorem isDigitC_natDigits (n : Nat) : ∀ c ∈ natDigits n, isDigitC c = true :=
  fun c hc => natDigits_digits n c hc

/-- The function `mkIntRat` agrees with the numeral embedding. -/
theorem mkIntRat_eq_cast (n : Nat) : mkIntRat n = (n : Rat) := by
  apply Rat.ext
  · rw [Rat.num_natCast]
    rfl
  · rw [Rat.den_natCast]
    rfl

/-- Parsing the printed body of a non-negative serialisable rational
recovers it exactly. -/
theorem parseNumTail_numBody (q : Rat) (k : Nat) (hk : pow10Exp q.den = some k)
    (hq : 0 ≤ q.num) (rest : List Char) (hrest : sepAfter rest) :
    parseNumTail (numBody q ++ rest) = some (q, rest) := by
  have hdvd : q.den ∣ 10 ^ k := by
    have h1 := List.find?_some hk
    exact (Nat.dvd_iff_mod_eq_zero).mpr (by simpa using h1)
  have hden : q.den ≠ 0 := q.den_nz
  have hmul : 10 ^ k / q.den * q.den = 10 ^ k := Nat.div_mul_cancel hdvd
  have hepos : 0 < 10 ^ k / q.den := by
    rcases Nat.eq_zero_or_pos (10 ^ k / q.den) with h | h
    · exfalso
      rw [h] at hmul
      simp at hmul
      exact absurd hmul.symm (by positivity)
    · exact h
  have hqe : ((q.num.natAbs : Rat)) / ((q.den : Rat)) = q := by
    have hcast : ((q.num.natAbs : Rat)) = ((q.num : Rat)) := by
      rw [← Int.cast_natCast, Int.natAbs_of_nonneg hq]
    rw [hcast, Rat.num_div_den]
  by_cases hk0 : k = 0
  · subst hk0
    have hd1 : q.den = 1 := Nat.eq_one_of_dvd_one (by simpa using hdvd)
    have hbody : numBody q = natDigits q.num.natAbs := by
      simp only [numBody, hk, if_pos rfl]
      rw [hd1]
      norm_num
    have hip : parseDigits (natDigits q.num.natAbs ++ rest)
        = some (natDigits q.num.natAbs, rest) :=
      parseDigits_roundtrip _ _ (isDigitC_natDigits _) (natDigits_ne_nil _)
        (sepAfter_headNot hrest)
    have hval : mkIntRat (digitsVal (natDigits q.num.natAbs)) = q := by
      rw [hd1] at hqe
      rw [Nat.cast_one, div_one] at hqe
      rw [digitsVal_natDigits, mkIntRat_eq_cast]
      exact hqe
    rw [hbody]
    cases hre : rest with
    | nil =>
      rw [hre] at hip
      simp only [parseNumTail, hip, hval]
    | cons c t =>
      have hcdot : c ≠ '.' := by
        rw [hre] at hrest
        exact (hrest c rfl).2
      rw [hre] at hip
      simp only [parseNumTail, hip, if_neg hcdot, hval]
  · have hkpos : 0 < k := Nat.pos_of_ne_zero hk0
    have hmlt : (q.num.natAbs * (10 ^ k / q.den)) % 10 ^ k < 10 ^ k :=
      Nat.mod_lt _ (by positivity)
    have hlenle : (natDigits ((q.num.natAbs * (10 ^ k / q.den)) % 10 ^ k)).length ≤ k :=
      natDigits_length_le _ k hkpos hmlt
    have hbody : numBody q
        = natDigits ((q.num.natAbs * (10 ^ k / q.den)) / 10 ^ k) ++ '.' ::
          (List.replicate (k - (natDigits ((q.num.natAbs * (10 ^ k / q.den)) % 10 ^ k)).length)
              '0' ++ natDigits ((q.num.natAbs * (10 ^ k / q.den)) % 10 ^ k)) := by
      simp only [numBody, hk, if_neg hk0]
    have hfsdigits : ∀ c ∈ (List.replicate
          (k - (natDigits ((q.num.natAbs * (10 ^ k / q.den)) % 10 ^ k)).length) '0' ++
          natDigits ((q.num.natAbs * (10 ^ k / q.den)) % 10 ^ k)), isDigitC c = true := by
      intro c hc
      rcases List.mem_append.mp hc with hc | hc
      · rw [List.eq_of_mem_replicate hc]
        decide
      · exact isDigitC_natDigits _ c hc
    have hfsne : (List.replicate
          (k - (natDigits ((q.num.natAbs * (10 ^ k / q.den)) % 10 ^ k)).length) '0' ++
          natDigits ((q.num.natAbs * (10 ^ k / q.den)) % 10 ^ k)) ≠ [] := by
      intro h
      exact natDigits_ne_nil _ (List.append_eq_nil.mp h).2
    have hfp : parseDigits ((List.replicate
          (k - (natDigits ((q.num.natAbs * (10 ^ k / q.den)) % 10 ^ k)).length) '0' ++
          natDigits ((q.num.natAbs * (10 ^ k / q.den)) % 10 ^ k)) ++ rest)
        = some ((List.replicate
          (k - (natDigits ((q.num.natAbs * (10 ^ k / q.den)) % 10 ^ k)).length) '0' ++
          natDigits ((q.num.natAbs * (10 ^ k / q.den)) % 10 ^ k)), rest) :=
      parseDigits_roundtrip _ _ hfsdigits hfsne (sepAfter_headNot hrest)
    have hip : parseDigits (natDigits ((q.num.natAbs * (10 ^ k / q.den)) / 10 ^ k) ++
        ('.' :: ((List.replicate
          (k - (natDigits ((q.num.natAbs * (10 ^ k / q.den)) % 10 ^ k)).length) '0' ++
          natDigits ((q.num.natAbs * (10 ^ k / q.den)) % 10 ^ k)) ++ rest)))
        = some (natDigits ((q.num.natAbs * (10 ^ k / q.den)) / 10 ^ k),
            '.' :: ((List.replicate
          (k - (natDigits ((q.num.natAbs * (10 ^ k / q.den)) % 10 ^ k)).length) '0' ++
          natDigits ((q.num.natAbs * (10 ^ k / q.den)) % 10 ^ k)) ++ rest)) := by
      refine parseDigits_roundtrip _ _ (isDigitC_natDigits _) (natDigits_ne_nil _) ?_
      intro c hc
      simp only [List.head?_cons, Option.some.injEq] at hc
      subst hc
      decide
    have hfslen : ((List.replicate
          (k - (natDigits ((q.num.natAbs * (10 ^ k / q.den)) % 10 ^ k)).length) '0' ++
          natDigits ((q.num.natAbs * (10 ^ k / q.den)) % 10 ^ k))).length = k := by
      rw [List.length_append, List.length_replicate]
      omega
    have hfsval : digitsVal (List.replicate
          (k - (natDigits ((q.num.natAbs * (10 ^ k / q.den)) % 10 ^ k)).length) '0' ++
          natDigits ((q.num.natAbs * (10 ^ k / q.den)) % 10 ^ k))
        = (q.num.natAbs * (10 ^ k / q.den)) % 10 ^ k := by
      rw [digitsVal_pad, digitsVal_natDigits]
    have hrecomb : (q.num.natAbs * (10 ^ k / q.den)) / 10 ^ k * 10 ^ k +
        (q.num.natAbs * (10 ^ k / q.den)) % 10 ^ k = q.num.natAbs * (10 ^ k / q.den) := by
      rw [Nat.mul_comm]
      exact Nat.div_add_mod _ _
    have hval : mkIntRat (digitsVal (natDigits ((q.num.natAbs * (10 ^ k / q.den)) / 10 ^ k)) *
          10 ^ ((List.replicate
            (k - (natDigits ((q.num.natAbs * (10 ^ k / q.den)) % 10 ^ k)).length) '0' ++
            natDigits ((q.num.natAbs * (10 ^ k / q.den)) % 10 ^ k))).length +
          digitsVal (List.replicate
            (k - (natDigits ((q.num.natAbs * (10 ^ k / q.den)) % 10 ^ k)).length) '0' ++
            natDigits ((q.num.natAbs * (10 ^ k / q.den)) % 10 ^ k)))
        / mkIntRat (10 ^ ((List.replicate
            (k - (natDigits ((q.num.natAbs * (10 ^ k / q.den)) % 10 ^ k)).length) '0' ++
            natDigits ((q.num.natAbs * (10 ^ k / q.den)) % 10 ^ k))).length) = q := by
      rw [hfslen, hfsval, digitsVal_natDigits, hrecomb, mkIntRat_eq_cast, mkIntRat_eq_cast]
      have h10 : ((10 ^ k : Nat) : Rat) = ((10 ^ k / q.den : Nat) : Rat) * ((q.den : Nat) : Rat) := by
        rw [← Nat.cast_mul, hmul]
      rw [Nat.cast_mul, h10]
      have hene : ((10 ^ k / q.den : Nat) : Rat) ≠ 0 := by
        exact_mod_cast Nat.pos_iff_ne_zero.mp hepos
      rw [mul_comm ((10 ^ k / q.den : Nat) : Rat) ((q.den : Nat) : Rat)]
      rw [mul_div_mul_right _ _ hene]
      exact hqe
    rw [hbody, List.append_assoc, List.cons_append]
    simp only [parseNumTail, hip, hfp]
    rw [hval]
    exact if_pos trivial

/-! ## String-escaping round trip -/

theorem hexVal_hexDigit : ∀ d < 16, hexVal (hexDigit d) = some d := by decide

theorem parseStrBody_escChar (c : Char) (acc rest : List Char) :
    parseStrBody (escChar c ++ rest) acc = parseStrBody rest (c :: acc) := by
  by_cases h1 : c = '"'
  · subst h1
    rw [parseStrBody.eq_def]
    simp [escChar]
  by_cases h2 : c = '\\'
  · subst h2
    rw [parseStrBody.eq_def]
    simp [escChar]
  by_cases h3 : c = '\n'
  · subst h3
    rw [parseStrBody.eq_def]
    simp [escChar]
  by_cases h4 : c = '\t'
  · subst h4
    rw [parseStrBody.eq_def]
    simp [escChar]
  by_cases h5 : c = '\r'
  · subst h5
    rw [parseStrBody.eq_def]
    simp [escChar]
  by_cases h6 : c = Char.ofNat 8
  · subst h6
    rw [parseStrBody.eq_def]
    simp [escChar]
  by_cases h7 : c = Char.ofNat 12
  · subst h7
    rw [parseStrBody.eq_def]
    simp [escChar]
  by_cases h8 : c.toNat < 32
  · have hesc : escChar c = '\\' :: 'u' :: hex4 c.toNat := by
      simp [escChar, h1, h2, h3, h4, h5, h6, h7, h8]
    have hx : hex4 c.toNat = [hexDigit (c.toNat / 4096 % 16), hexDigit (c.toNat / 256 % 16),
        hexDigit (c.toNat / 16 % 16), hexDigit (c.toNat % 16)] := rfl
    have ha := hexVal_hexDigit (c.toNat / 4096 % 16) (Nat.mod_lt _ (by norm_num))
    have hb := hexVal_hexDigit (c.toNat / 256 % 16) (Nat.mod_lt _ (by norm_num))
    have hc := hexVal_hexDigit (c.toNat / 16 % 16) (Nat.mod_lt _ (by norm_num))
    have hd := hexVal_hexDigit (c.toNat % 16) (Nat.mod_lt _ (by norm_num))
    have hn : 4096 * (c.toNat / 4096 % 16) + 256 * (c.toNat / 256 % 16) +
        16 * (c.toNat / 16 % 16) + c.toNat % 16 = c.toNat := by
      have hlt : c.toNat < 65536 := by omega
      omega
    have hchar : Char.ofNat (4096 * (c.toNat / 4096 % 16) + 256 * (c.toNat / 256 % 16) +
        16 * (c.toNat / 16 % 16) + c.toNat % 16) = c := by
      rw [hn, Char.ofNat_toNat]
    rw [hesc, hx]
    rw [parseStrBody.eq_def]
    simp only [List.cons_append, ha, hb, hc, hd]
    simp [hchar]
  · have hesc : escChar c = [c] := by
      simp [escChar, h1, h2, h3, h4, h5, h6, h7, h8]
    rw [hesc]
    simp only [List.cons_append, List.nil_append]
    rw [parseStrBody.eq_def]
    simp [h1, h2]

theorem parseStrBody_flatten (l : List Char) (acc rest : List Char) :
    parseStrBody ((l.map escChar).flatten ++ ('"' :: rest)) acc
      = some (⟨acc.reverse ++ l⟩, rest) := by
  induction l generalizing acc with
  | nil =>
    rw [parseStrBody.eq_def]
    simp
  | cons c t ih =>
    simp only [List.map_cons, List.flatten_cons, List.append_assoc]
    rw [parseStrBody_escChar, ih (c :: acc)]
    simp

theorem parseStrBody_roundtrip (s : String) (rest : List Char) :
    parseStrBody ((s.data.map escChar).flatten ++ ('"' :: rest)) [] = some (s, rest) := by
  rw [parseStrBody_flatten]
  simp

theorem numBody_neg (q : Rat) : numBody (-q) = numBody q := by
  unfold numBody
  rw [show (-q).den = q.den from rfl]
  cases h : pow10Exp q.den with
  | none => rfl
  | some k =>
    simp only [show (-q).num = -q.num from rfl, Int.natAbs_neg]

theorem natDigits_head :
    ∀ n, ∃ d ds, natDigits n = d :: ds ∧ isDigitC d = true := by
  intro n
  cases h : natDigits n with
  | nil => exact absurd h (natDigits_ne_nil n)
  | cons d ds =>
    refine ⟨d, ds, rfl, ?_⟩
    exact isDigitC_natDigits n d (by rw [h]; simp)

theorem numBody_head (q : Rat) (k : Nat) (hk : pow10Exp q.den = some k) :
    ∃ d ds, numBody q = d :: ds ∧ isDigitC d = true := by
  unfold numBody
  rw [hk]
  by_cases hk0 : k = 0
  · subst hk0
    simp only [if_pos rfl]
    exact natDigits_head _
  · simp only [if_neg hk0]
    obtain ⟨d, ds, hd, hdig⟩ := natDigits_head (q.num.natAbs * (10 ^ k / q.den) / 10 ^ k)
    exact ⟨d, ds ++ '.' :: (List.replicate
      (k - (natDigits (q.num.natAbs * (10 ^ k / q.den) % 10 ^ k)).length) '0' ++
      natDigits (q.num.natAbs * (10 ^ k / q.den) % 10 ^ k)), by rw [hd]; simp, hdig⟩

theorem parseScalar_roundtrip (v : Value) (hv : serializableV v) (rest : List Char)
    (hrest : sepAfter rest) : parseScalar (valueChars v ++ rest) = some (v, rest) := by
  cases v with
  | vNone =>
    rw [parseScalar.eq_def]
    simp [valueChars]
  | vStr s =>
    show parseScalar (('"' :: ((s.data.map escChar).flatten ++ ['"'])) ++ rest) = _
    rw [parseScalar.eq_def]
    simp only [List.cons_append, List.append_assoc, List.singleton_append, List.nil_append,
      if_true]
    rw [parseStrBody_roundtrip]
    rfl
  | vNum q =>
    have hk' : ∃ k, pow10Exp q.den = some k := by
      have hv2 : (pow10Exp q.den).isSome = true := hv
      cases h : pow10Exp q.den with
      | none => rw [h] at hv2; simp at hv2
      | some k => exact ⟨k, rfl⟩
    obtain ⟨k, hk⟩ := hk'
    by_cases hneg : q.num < 0
    · have hq' : 0 ≤ (-q).num := by
        rw [show (-q).num = -q.num from rfl]
        omega
    
      have hk2 : pow10Exp (-q).den = some k := by
        rw [show (-q).den = q.den from rfl]
        exact hk
      have hnum := parseNumTail_numBody (-q) k hk2 hq' rest hrest
      rw [numBody_neg] at hnum
      show parseScalar (((if q.num < 0 then ['-'] else []) ++ numBody q) ++ rest) = _
      rw [if_pos hneg]
      rw [parseScalar.eq_def]
      simp only [List.cons_append, List.nil_append, List.append_assoc, if_true]
      rw [hnum]
      simp
    · have hq : 0 ≤ q.num := by omega
      have hnum := parseNumTail_numBody q k hk hq rest hrest
      obtain ⟨d, ds, hds, hdig⟩ := numBody_head q k hk
      have hdn : d ≠ 'n' := by
        intro h
        rw [h] at hdig
        simp [isDigitC] at hdig
      have hdq : d ≠ '"' := by
        intro h
        rw [h] at hdig
        simp [isDigitC] at hdig
      have hdm : d ≠ '-' := by
        intro h
        rw [h] at hdig
        simp [isDigitC] at hdig
      show parseScalar (((if q.num < 0 then ['-'] else []) ++ numBody q) ++ rest) = _
      rw [if_neg hneg]
      rw [List.nil_append, hds]
      rw [parseScalar.eq_def]
      simp only [List.cons_append]
      rw [if_neg hdn, if_neg hdq, if_neg hdm]
      rw [show d :: (ds ++ rest) = (d :: ds) ++ rest from rfl, ← hds, hnum]
      rfl

theorem sepAfter_cbrace (rest : List Char) : sepAfter (cbrace :: rest) := by
  intro c hc
  simp only [List.head?_cons, Option.some.injEq] at hc
  subst hc
  constructor
  · decide
  · decide

theorem sepAfter_comma (rest : List Char) : sepAfter (',' :: rest) := by
  intro c hc
  simp only [List.head?_cons, Option.some.injEq] at hc
  subst hc
  constructor
  · decide
  · decide

theorem parseMembers_roundtrip :
    ∀ (d : Dict) (fuel : Nat) (rest : List Char), d ≠ [] → d.length ≤ fuel →
      (∀ kv ∈ d, serializableV kv.2) →
      parseMembers fuel (joinSep ',' (d.map memberChars) ++ (cbrace :: rest))
        = some (d, rest) := by
  intro d
  induction d with
  | nil => intro fuel rest h _ _; exact absurd rfl h
  | cons kv tl ih =>
    intro fuel rest _ hfuel hser
    cases fuel with
    | zero => simp at hfuel
    | succ f =>
      have hserkv : serializableV kv.2 := hser kv (by simp)
      cases tl with
      | nil =>
        have hshape : joinSep ',' ((kv :: ([] : Dict)).map memberChars) ++ (cbrace :: rest)
            = '"' :: (((kv.1.data.map escChar).flatten) ++
              ('"' :: (':' :: (valueChars kv.2 ++ (cbrace :: rest))))) := by
          simp [joinSep, memberChars, strChars, List.append_assoc]
        rw [hshape, parseMembers.eq_def]
        simp only []
        rw [parseStrBody_roundtrip]
        simp only []
        rw [parseScalar_roundtrip kv.2 hserkv (cbrace :: rest) (sepAfter_cbrace rest)]
        simp
        intro h
        exact absurd h (by decide)
      | cons kv2 tl2 =>
        have hshape : joinSep ',' ((kv :: kv2 :: tl2).map memberChars) ++ (cbrace :: rest)
            = '"' :: (((kv.1.data.map escChar).flatten) ++
              ('"' :: (':' :: (valueChars kv.2 ++
                (',' :: (joinSep ',' ((kv2 :: tl2).map memberChars) ++ (cbrace :: rest))))))) := by
          simp [joinSep, memberChars, strChars, List.append_assoc]
        rw [hshape, parseMembers.eq_def]
        simp only []
        rw [parseStrBody_roundtrip]
        simp only []
        rw [parseScalar_roundtrip kv.2 hserkv _ (sepAfter_comma _)]
        simp only []
        rw [ih f rest (by simp) (by simpa using hfuel) (fun x hx => hser x (by simp [hx]))]
        rfl

theorem parseLead_roundtrip (d : Dict) (fuel : Nat) (rest : List Char)
    (hfuel : d.length ≤ fuel) (hser : ∀ kv ∈ d, serializableV kv.2) :
    parseLead fuel (leadChars d ++ rest) = some (d, rest) := by
  cases d with
  | nil =>
    rw [parseLead.eq_def]
    simp [leadChars, joinSep]
  | cons kv tl =>
    have hmem : ∃ T, joinSep ',' ((kv :: tl).map memberChars) ++ (cbrace :: rest) = '"' :: T := by
      cases tl with
      | nil =>
        exact ⟨(kv.1.data.map escChar).flatten ++
          ('"' :: (':' :: (valueChars kv.2 ++ (cbrace :: rest)))),
          by simp [joinSep, memberChars, strChars, List.append_assoc]⟩
      | cons kv2 tl2 =>
        exact ⟨(kv.1.data.map escChar).flatten ++
          ('"' :: (':' :: (valueChars kv.2 ++
            (',' :: (joinSep ',' ((kv2 :: tl2).map memberChars) ++ (cbrace :: rest)))))),
          by simp [joinSep, memberChars, strChars, List.append_assoc]⟩
    obtain ⟨T, hT⟩ := hmem
    have hfull : leadChars (kv :: tl) ++ rest = obrace :: '"' :: T := by
      rw [← hT]
      simp [leadChars, List.append_assoc]
    rw [hfull, parseLead.eq_def]
    simp only [if_true]
    rw [if_neg (by decide), ← hT]
    exact parseMembers_roundtrip (kv :: tl) fuel rest (by simp) hfuel hser

theorem parseLeadsItems_roundtrip :
    ∀ (ls : List Dict) (fuel : Nat) (rest : List Char), ls ≠ [] →
      (ls.map (fun d => d.length + 1)).sum ≤ fuel →
      serializableLeads ls →
      parseLeadsItems fuel (joinSep ',' (ls.map leadChars) ++ (']' :: rest))
        = some (ls, rest) := by
  intro ls
  induction ls with
  | nil => intro fuel rest h _ _; exact absurd rfl h
  | cons d tl ih =>
    intro fuel rest _ hfuel hser
    cases fuel with
    | zero => simp at hfuel
    | succ f =>
      have hserd : ∀ kv ∈ d, serializableV kv.2 := hser d (by simp)
      have hfuel2 : d.length + 1 + (tl.map (fun d => d.length + 1)).sum ≤ f + 1 := by
        simpa using hfuel
      cases tl with
      | nil =>
        have hshape : joinSep ',' ((d :: ([] : List Dict)).map leadChars) ++ (']' :: rest)
            = leadChars d ++ (']' :: rest) := by
          simp [joinSep]
        rw [hshape, parseLeadsItems.eq_def]
        simp only []
        rw [parseLead_roundtrip d f (']' :: rest) (by omega) hserd]
        simp only [if_true]
        rw [if_neg (by decide)]
      | cons d2 tl2 =>
        have hshape : joinSep ',' ((d :: d2 :: tl2).map leadChars) ++ (']' :: rest)
            = leadChars d ++ (',' :: (joinSep ',' ((d2 :: tl2).map leadChars) ++ (']' :: rest))) := by
          simp [joinSep, List.append_assoc]
        rw [hshape, parseLeadsItems.eq_def]
        simp only []
        rw [parseLead_roundtrip d f _ (by omega) hserd]
        simp only [if_true]
        rw [ih f rest (by simp) (by simp at hfuel2 ⊢; omega)
          (fun x hx => hser x (by simp [hx]))]
        rfl

theorem parseLeadsTop_roundtrip (ls : List Dict) (fuel : Nat) (rest : List Char)
    (hfuel : (ls.map (fun d => d.length + 1)).sum ≤ fuel) (hser : serializableLeads ls) :
    parseLeadsTop fuel (leadsChars ls ++ rest) = some (ls, rest) := by
  cases ls with
  | nil =>
    rw [parseLeadsTop.eq_def]
    simp [leadsChars, joinSep]
  | cons d tl =>
    have hmem : ∃ T, joinSep ',' ((d :: tl).map leadChars) ++ (']' :: rest) = obrace :: T := by
      cases tl with
      | nil =>
        exact ⟨(joinSep ',' (d.map memberChars) ++ [cbrace]) ++ (']' :: rest),
          by simp [joinSep, leadChars, List.append_assoc]⟩
      | cons d2 tl2 =>
        exact ⟨(joinSep ',' (d.map memberChars) ++ [cbrace]) ++
            (',' :: (joinSep ',' ((d2 :: tl2).map leadChars) ++ (']' :: rest))),
          by simp [joinSep, leadChars, List.append_assoc]⟩
    obtain ⟨T, hT⟩ := hmem
    have hfull : leadsChars (d :: tl) ++ rest = '[' :: obrace :: T := by
      rw [← hT]
      simp [leadsChars, List.append_assoc]
    rw [hfull, parseLeadsTop.eq_def]
    simp only [if_true]
    rw [if_neg (by decide), ← hT]
    exact parseLeadsItems_roundtrip (d :: tl) fuel rest (by simp) hfuel hser

theorem length_memberChars_pos (kv : String × Value) : 1 ≤ (memberChars kv).length := by
  simp [memberChars, strChars]

theorem joinSep_length_ge (c : Char) (xs : List (List Char))
    (h : ∀ x ∈ xs, 1 ≤ x.length) : xs.length ≤ (joinSep c xs).length := by
  induction xs with
  | nil => simp [joinSep]
  | cons x t iht =>
    cases t with
    | nil => simpa [joinSep] using h x (by simp)
    | cons y t2 =>
      have hx := h x (by simp)
      have ht := iht (fun z hz => h z (by simp [hz]))
      simp only [joinSep, List.length_append, List.length_cons] at ht ⊢
      omega

theorem leadChars_length_ge (d : Dict) : d.length + 2 ≤ (leadChars d).length := by
  have h := joinSep_length_ge ',' (d.map memberChars) (fun x hx => by
    obtain ⟨kv, _, rfl⟩ := List.mem_map.mp hx
    exact length_memberChars_pos kv)
  have hm : (d.map memberChars).length = d.length := List.length_map _ _
  rw [hm] at h
  simp only [leadChars, List.length_cons, List.length_append, List.length_singleton]
  omega

theorem leadsFuel_le (ls : List Dict) :
    (ls.map (fun d => d.length + 1)).sum ≤ (joinSep ',' (ls.map leadChars)).length + 1 := by
  induction ls with
  | nil => simp [joinSep]
  | cons d tl ih =>
    cases tl with
    | nil =>
      have := leadChars_length_ge d
      simp only [List.map_cons, List.map_nil, joinSep, List.sum_cons, List.sum_nil]
      omega
    | cons d2 tl2 =>
      have h1 := leadChars_length_ge d
      simp only [List.map_cons, joinSep, List.length_append, List.length_cons,
        List.sum_cons] at ih ⊢
      omega

theorem loads_dumps (ls : List Dict) (hser : serializableLeads ls) :
    loads (dumps ls) = some ls := by
  unfold loads dumps
  have hfuel : (ls.map (fun d => d.length + 1)).sum
      ≤ (⟨leadsChars ls⟩ : String).data.length + 1 := by
    have h1 := leadsFuel_le ls
    have h2 : (⟨leadsChars ls⟩ : String).data = leadsChars ls := rfl
    rw [h2]
    simp only [leadsChars, List.length_cons, List.length_append, List.length_singleton]
    omega
  have h2 : parseLeadsTop ((⟨leadsChars ls⟩ : String).data.length + 1)
      ((⟨leadsChars ls⟩ : String).data) = some (ls, []) := by
    have h3 := parseLeadsTop_roundtrip ls ((⟨leadsChars ls⟩ : String).data.length + 1) []
      hfuel hser
    simpa using h3
  rw [h2]

/-- C10: for every persistable lead collection (every numeric field a
finite decimal — true of all Python floats), `save_leads` followed by
`load_leads` returns exactly the collection that was saved: the load
operation inverts the save operation through the persisted document. -/
theorem c10_save_load_roundtrip (fs : FileStore) (ls : List Dict)
    (h : serializableLeads ls) : load_leads (save_leads fs ls) = ls := by
  unfold save_leads load_leads
  simp only [loads_dumps ls h]

/-- C10 witness: a concrete collection (strings, a number, a `None`
field) survives the save/load round trip. -/
theorem c10_save_load_roundtrip_witness :
    serializableLeads [[("Name", vStr "Jane Doe"), ("Email", vStr "jane@acme.com"),
        ("Budget", vNum (mkIntRat 42)), ("Phone", vNone)]] ∧
    load_leads (save_leads none [[("Name", vStr "Jane Doe"), ("Email", vStr "jane@acme.com"),
        ("Budget", vNum (mkIntRat 42)), ("Phone", vNone)]])
      = [[("Name", vStr "Jane Doe"), ("Email", vStr "jane@acme.com"),
        ("Budget", vNum (mkIntRat 42)), ("Phone", vNone)]] :=
  ⟨by decide, c10_save_load_roundtrip none _ (by decide)⟩
